import Mathlib

/-!
Verification of the threshold-access-structure and quorum-signing
orchestration layer of the cb-mpc Solana demo programs.

The Go sources embedded here:
* `src/unnamed/part_000` — the complete demo (`performMPCSigning`,
  `createThresholdAccessStructure`).
* `src/unnamed/part_001` — the wallet generator (`main`, DKG collection
  and public-key extraction) and the real-transfer program
  (`signWithMPC`, signature collection).
* `src/solana-transaction-signer.go` — the transaction signer
  (`performMPCSigning`, signature collection and length checks).

The cb-mpc library itself (access-structure evaluation, share
conversion, share serialization) and `golang.org/x/crypto/pbkdf2` are
imported dependencies that are not under `src/`; those parts are
modelled from the spec, each marked `Modelled from the spec:` in its
doc comment.
-/

namespace CbMpc

/-- Byte sequences, modelled as lists of naturals. -/
abbrev Bytes := List Nat

/-- Error values produced by the orchestration layer and by the
(modelled) cb-mpc library calls.  Constructors mirror the distinct
error strings of the Go sources. -/
inductive MPCError where
  /-- `ToAdditiveShare`: quorum does not satisfy the access structure
  (spec §4.4, `UnauthorizedQuorum`). -/
  | UnauthorizedQuorum : MPCError
  /-- `NewJobMP` with a bad index / party count (spec §4.2). -/
  | InvalidSessionConfig : MPCError
  /-- `UnmarshalBinary` on malformed bytes. -/
  | badEncoding : MPCError
  /-- part_000: "MPC signing did not produce a signature". -/
  | noSignature : MPCError
  /-- signer: "no signature received". -/
  | noSignatureReceived : MPCError
  /-- "invalid signature length: got %d, expected 64". -/
  | invalidSignatureLength (got : Nat) : MPCError
  /-- "... failed for party %d: %v" — a wrapped per-party protocol error. -/
  | partyFailed (idx : Nat) (e : MPCError) : MPCError
  /-- `fmt.Errorf("...: %v", err)` wrapping with a message tag. -/
  | wrap (tag : String) (e : MPCError) : MPCError
  /-- an opaque protocol-level failure surfaced by the library. -/
  | other (msg : String) : MPCError
deriving DecidableEq, Repr

/-- Access-policy tree node: `mpc.Leaf(name)` or
`mpc.Threshold(label, k, children...)` (spec §3 AccessNode). -/
inductive AccessNode where
  | leaf (partyName : String) : AccessNode
  | threshold (label : String) (k : Nat) (children : List AccessNode) : AccessNode
deriving Repr

/-- `mpc.AccessStructure{Root, Curve}`; the curve is identified by an id
(Ed25519 below). -/
structure AccessStructure where
  root : AccessNode
  curveId : Nat
deriving Repr

/-- Curve id standing for the Ed25519 curve object. -/
def ed25519CurveId : Nat := 0

/-- `createThresholdAccessStructure` from `part_000` lines 307–321 and
`part_001` lines 150–164: one leaf per party name under a single
threshold root with empty label. -/
def createThresholdAccessStructure (partyNames : List String) (threshold : Nat)
    (cv : Nat) : AccessStructure :=
  { root := AccessNode.threshold "" threshold (partyNames.map AccessNode.leaf)
    curveId := cv }

mutual

/-- Modelled from the spec: the cb-mpc library's access-structure
evaluation (not under `src/`).  Spec §3: "a Threshold node is satisfied
when at least `k` of its children are satisfied by S; a Leaf is
satisfied iff its party is in S". -/
def satisfiesNode : AccessNode → List String → Bool
  | AccessNode.leaf name, s => s.contains name
  | AccessNode.threshold _ k children, s => k ≤ countSatisfied children s

/-- Number of children of a Threshold node satisfied by the subset. -/
def countSatisfied : List AccessNode → List String → Nat
  | [], _ => 0
  | c :: cs, s => (if satisfiesNode c s then 1 else 0) + countSatisfied cs s

end

/-- Modelled from the spec: `satisfies(structure, name_subset)` (spec
§4.1), evaluated recursively top-down from the root. -/
def satisfies (a : AccessStructure) (s : List String) : Bool :=
  satisfiesNode a.root s

/-- Modelled from the spec: `mpc.EDDSAMPCKey`, the opaque per-party key
share (spec §3 KeyShare): secret material plus the shared public key
`Q` (exposed through `Q().GetX()` as the 32-byte X-coordinate,
`part_001` lines 95–103). -/
structure EDDSAMPCKey where
  secret : Bytes
  q : Bytes
deriving DecidableEq, Repr

instance : Inhabited EDDSAMPCKey := ⟨⟨[], []⟩⟩

/-- Modelled from the spec: the serialized share format (spec §6), a
lossless byte encoding of a key share: the secret length, the secret
bytes, then the public-key bytes. -/
def MarshalBinary (k : EDDSAMPCKey) : Bytes :=
  k.secret.length :: (k.secret ++ k.q)

/-- Modelled from the spec: inverse of `MarshalBinary`; fails on bytes
that do not parse as a share. -/
def UnmarshalBinary : Bytes → Except MPCError EDDSAMPCKey
  | [] => Except.error MPCError.badEncoding
  | l :: rest =>
    if rest.length < l then Except.error MPCError.badEncoding
    else Except.ok { secret := rest.take l, q := rest.drop l }

/-- Modelled from the spec: the additive share derived from one party's
key share for one specific quorum (spec §3 AdditiveShare).  In the Go
API the value has type `mpc.EDDSAMPCKey` again; the quorum it was
derived for is kept explicit here. -/
structure AdditiveShare where
  key : EDDSAMPCKey
  quorum : List String
deriving DecidableEq, Repr

/-- Modelled from the spec: `EDDSAMPCKey.ToAdditiveShare` (spec §4.4).
Precondition: the quorum must satisfy the access structure, checked via
§4.1; violation fails with `UnauthorizedQuorum` before any
cryptographic work (the error branch performs none).  On success an
additive share for exactly the given quorum is produced. -/
def ToAdditiveShare (k : EDDSAMPCKey) (ac : AccessStructure)
    (quorum : List String) : Except MPCError AdditiveShare :=
  if satisfies ac quorum then Except.ok { key := k, quorum := quorum }
  else Except.error MPCError.UnauthorizedQuorum

/-- `errgroup.Wait` over the per-party task outcomes of a run: the
first error among the parties' results, if any (`part_000` lines
264–298, `part_001` lines 63–90). -/
def firstError {α : Type} : List (Except MPCError α) → Option MPCError
  | [] => none
  | Except.error e :: _ => some e
  | Except.ok _ :: rest => firstError rest

/-- Final collection step of `performMPCSigning` in `part_000` (lines
264–304): `eg.Wait()` surfaces any party's error; otherwise
`finalSignature` is the signature assigned by the party whose index
equals `signatureReceiver` (`part_000` lines 289–291), and the only
final check is against an EMPTY signature ("MPC signing did not
produce a signature"). -/
def performFinish (receiver : Nat) (results : List (Except MPCError Bytes)) :
    Except MPCError Bytes :=
  match firstError results with
  | some e => Except.error e
  | none =>
    let finalSignature : Bytes :=
      match results.get? receiver with
      | some (Except.ok s) => s
      | _ => []
    if finalSignature.length = 0 then Except.error MPCError.noSignature
    else Except.ok finalSignature

/-- Signature-collection loop of `signWithMPC` in `part_001` (lines
496–511): results arrive as `(idx, outcome)` pairs; the first error
encountered aborts with "signing failed for party %d"; a successful
non-empty response whose index equals the receiver is kept
(`result.idx == signatureReceiver && len(result.signature) > 0`);
after the loop a final signature whose length is not 64 is rejected
("invalid signature length: got %d, expected 64"). -/
def signCollect (receiver : Nat) :
    List (Nat × Except MPCError Bytes) → Bytes → Except MPCError Bytes
  | [], acc =>
    if acc.length ≠ 64 then Except.error (MPCError.invalidSignatureLength acc.length)
    else Except.ok acc
  | (idx, Except.error e) :: _, _ => Except.error (MPCError.partyFailed idx e)
  | (idx, Except.ok s) :: rest, acc =>
    signCollect receiver rest (if idx = receiver ∧ 0 < s.length then s else acc)

/-- Signature-collection of `performMPCSigning` in
`solana-transaction-signer.go` (lines 199–227): same loop as
`signWithMPC`, then an empty final signature fails with "no signature
received" and a non-64-byte one with "invalid Ed25519 signature
length". -/
def signerCollect (receiver : Nat) :
    List (Nat × Except MPCError Bytes) → Bytes → Except MPCError Bytes
  | [], acc =>
    if acc.length = 0 then Except.error MPCError.noSignatureReceived
    else if acc.length ≠ 64 then Except.error (MPCError.invalidSignatureLength acc.length)
    else Except.ok acc
  | (idx, Except.error e) :: _, _ => Except.error (MPCError.partyFailed idx e)
  | (idx, Except.ok s) :: rest, acc =>
    signerCollect receiver rest (if idx = receiver ∧ 0 < s.length then s else acc)

/-- DKG fan-in of the wallet generator's `main` (`part_001` lines
63–91): each party's task writes its key share into its slot;
`eg.Wait()` surfaces the first failure, in which case the program
aborts (`log.Fatalf("DKG protocol failed: %v")`) and no shares are
returned. -/
def dkgMain (results : List (Except MPCError EDDSAMPCKey)) :
    Except MPCError (List EDDSAMPCKey) :=
  match firstError results with
  | some e => Except.error (MPCError.wrap "DKG protocol failed" e)
  | none => Except.ok (results.filterMap Except.toOption)

/-- Public-key extraction of the wallet generator's `main` (`part_001`
lines 93–107): the shared key `Q` is read from party 0's share only
(`keyShares[0].Q()`, source comment "All parties have same public
key"), its X-coordinate must be 32 bytes (`ed25519.PublicKeySize`),
and no other party's `Q` is inspected. -/
def extractPublicKey (keyShares : List EDDSAMPCKey) : Except MPCError Bytes :=
  match keyShares.get? 0 with
  | none => Except.error (MPCError.other "no key shares")
  | some k =>
    let publicKeyBytes := k.q
    if publicKeyBytes.length ≠ 32 then
      Except.error (MPCError.other "Invalid Ed25519 public key length")
    else Except.ok publicKeyBytes

/-- Big-endian 4-byte block counter `INT(i)` of PBKDF2 (RFC 2898). -/
def intBE (n : Nat) : Bytes :=
  [n / 2 ^ 24 % 256, n / 2 ^ 16 % 256, n / 2 ^ 8 % 256, n % 256]

/-- Byte-wise xor of two byte strings. -/
def xorBytes (a b : Bytes) : Bytes :=
  List.zipWith (fun x y => x ^^^ y) a b

/-- Modelled from the spec: the inner loop of PBKDF2
(`golang.org/x/crypto/pbkdf2`, an external dependency not under
`src/`): `U_{j+1} = PRF(password, U_j)` and `T` accumulates the xor of
all `U_j`; `n` counts the remaining PRF applications. -/
def pbkdf2Inner (prf : Bytes → Bytes → Bytes) (password : Bytes) :
    Nat → Bytes → Bytes → Bytes
  | 0, _, t => t
  | n + 1, u, t =>
    let u' := prf password u
    pbkdf2Inner prf password n u' (xorBytes t u')

/-- Modelled from the spec: `pbkdf2.Key(password, salt, iter, keyLen, h)`
with `hLen`-byte PRF blocks (spec §6 "PIN/KDF derivation"): block `T_i`
starts from `PRF(password, salt ‖ INT(i))` and xors `iter` PRF
outputs; the concatenated blocks are truncated to `keyLen` bytes. -/
def pbkdf2Key (prf : Bytes → Bytes → Bytes) (password salt : Bytes)
    (iter keyLen hLen : Nat) : Bytes :=
  let numBlocks := (keyLen + hLen - 1) / hLen
  (((List.range numBlocks).map (fun b =>
      let u1 := prf password (salt ++ intBE (b + 1))
      pbkdf2Inner prf password (iter - 1) u1 u1)).flatten).take keyLen

/-- The PBKDF2 salt of `part_000` line 214 (`"solana-mpc-salt"`). -/
def pinSalt000 : Bytes := "solana-mpc-salt".toList.map Char.toNat

/-- Modelled from the spec: the session precondition of `mpc.NewJobMP`
(spec §4.2): `0 ≤ my_index < total_parties` and
`len(party_names) == total_parties`, else `InvalidSessionConfig`. -/
def newJobMPOk (total idx : Nat) (names : List String) : Bool :=
  decide (idx < total ∧ names.length = total)

/-- Modelled from the spec: the MPC primitive library's protocol
engines (spec §6), abstracted as a per-run oracle: `keygen` is party
`i`'s `EDDSAMPCKeyGen` outcome, `sign` its `EDDSAMPCSign` outcome for
a key share, a message and a receiver index, and `signAdd` the same
for an additive share (`part_000` signs with converted shares). -/
structure MPCOracle where
  keygen : Nat → Except MPCError EDDSAMPCKey
  sign : Nat → EDDSAMPCKey → Bytes → Nat → Except MPCError Bytes
  signAdd : Nat → AdditiveShare → Bytes → Nat → Except MPCError Bytes

/-- `performMPCSigning` of `part_000` (lines 208–305): derives
`s3KeyBytes` from the PIN via PBKDF2 (line 214) and discards it
(`_ = s3KeyBytes`, line 231); deserializes the two hard-coded shares;
builds the 2-of-3 access structure over `{server, kms, pin}`; converts
both shares for the quorum `{server, pin}`; runs the signing protocol
over the two quorum jobs (each `NewJobMP(messenger, 3, partyIdx,
partyNames)`) and collects with receiver index 0 via
`performFinish`. -/
def performMPCSigning (prf : Bytes → Bytes → Bytes) (o : MPCOracle)
    (s1Bytes s3Bytes pin message : Bytes) : Except MPCError Bytes :=
  let s3KeyBytes := pbkdf2Key prf pin pinSalt000 100000 32 32
  let _ := s3KeyBytes
  match UnmarshalBinary s1Bytes with
  | Except.error e => Except.error (MPCError.wrap "failed to unmarshal S1 key" e)
  | Except.ok s1Key =>
    match UnmarshalBinary s3Bytes with
    | Except.error e => Except.error (MPCError.wrap "failed to unmarshal S3 key" e)
    | Except.ok s3Key =>
      let partyNames := ["server", "kms", "pin"]
      let ac := createThresholdAccessStructure partyNames 2 ed25519CurveId
      let quorum := ["server", "pin"]
      match ToAdditiveShare s1Key ac quorum with
      | Except.error e =>
        Except.error (MPCError.wrap "could not convert s1 to additive share" e)
      | Except.ok s1Add =>
        match ToAdditiveShare s3Key ac quorum with
        | Except.error e =>
          Except.error (MPCError.wrap "could not convert s3 to additive share" e)
        | Except.ok s3Add =>
          let parties := [s1Add, s3Add]
          let signatureReceiver := 0
          let results := (List.range parties.length).map (fun partyIdx =>
            if newJobMPOk 3 partyIdx partyNames then
              o.signAdd partyIdx (parties.getD partyIdx s1Add) message
                signatureReceiver
            else Except.error MPCError.InvalidSessionConfig)
          performFinish signatureReceiver results

/-- Key-generation fan-in of `signWithMPC` (`part_001` lines 450–458)
and of the transaction signer (lines 150–158): each received result
either aborts with "keygen failed for party %d" or contributes its key
share to its slot. -/
def collectKeygen : List (Nat × Except MPCError EDDSAMPCKey) →
    Except MPCError (List EDDSAMPCKey)
  | [] => Except.ok []
  | (idx, Except.error e) :: _ => Except.error (MPCError.partyFailed idx e)
  | (_, Except.ok k) :: rest =>
    match collectKeygen rest with
    | Except.error e => Except.error e
    | Except.ok ks => Except.ok (k :: ks)

/-- `signWithMPC` of `part_001` (lines 401–512): the persisted
`S1Share` constant is in scope but never read — the function generates
three fresh key shares via `EDDSAMPCKeyGen` over the party set
`{server, pin-device, offline-kms}` (lines 430–458) and signs with
those, collecting the receiver-0 signature via `signCollect` with its
final 64-byte check. -/
def signWithMPC (o : MPCOracle) (s1Share : String) (messageToSign : Bytes) :
    Except MPCError Bytes :=
  let _ := s1Share
  let nParties := 3
  let partyNames := ["server", "pin-device", "offline-kms"]
  let keygenResults := (List.range nParties).map (fun partyIdx =>
    (partyIdx,
      if newJobMPOk nParties partyIdx partyNames then o.keygen partyIdx
      else Except.error MPCError.InvalidSessionConfig))
  match collectKeygen keygenResults with
  | Except.error e => Except.error e
  | Except.ok keyShares =>
    let signatureReceiver := 0
    let signResults := (List.range nParties).map (fun partyIdx =>
      (partyIdx,
        if newJobMPOk nParties partyIdx partyNames then
          o.sign partyIdx (keyShares.getD partyIdx default) messageToSign
            signatureReceiver
        else Except.error MPCError.InvalidSessionConfig))
    signCollect signatureReceiver signResults []

/-- A concrete oracle in which every party's keygen and signing
succeed with fixed values; used to instantiate theorems. -/
def demoOracle : MPCOracle where
  keygen i := Except.ok ⟨[i], List.replicate 32 3⟩
  sign _ _ _ _ := Except.ok (List.replicate 64 5)
  signAdd _ _ _ _ := Except.ok (List.replicate 64 5)

end CbMpc

open CbMpc

/-- The 2-of-3 access structure of both demo programs:
`createThresholdAccessStructure(partyNames, 2, ed25519Curve)` with
`partyNames = ["server", "kms", "pin"]`. -/
def twoOfThreeAC : AccessStructure :=
  createThresholdAccessStructure ["server", "kms", "pin"] 2 ed25519CurveId

/-- C3: for the 2-of-3 access structure built by
`createThresholdAccessStructure` over `{server, kms, pin}`, `satisfies`
is true on `{server,pin}`, `{server,kms}`, `{pin,kms}` and
`{server,kms,pin}`, and false on `{server}` and the empty subset. -/
theorem satisfies_two_of_three :
    satisfies twoOfThreeAC ["server", "pin"] = true ∧
    satisfies twoOfThreeAC ["server", "kms"] = true ∧
    satisfies twoOfThreeAC ["pin", "kms"] = true ∧
    satisfies twoOfThreeAC ["server", "kms", "pin"] = true ∧
    satisfies twoOfThreeAC ["server"] = false ∧
    satisfies twoOfThreeAC [] = false := by
  refine ⟨?_, ?_, ?_, ?_, ?_, ?_⟩ <;> rfl

/-- C4: share conversion checks its quorum against the access structure
first: an unsatisfying quorum fails with `UnauthorizedQuorum` (before
any cryptographic work — the error branch performs none), and a
satisfying quorum yields an additive share recorded for exactly that
quorum. -/
theorem toAdditiveShare_quorum_check (k : EDDSAMPCKey) (ac : AccessStructure)
    (quorum : List String) :
    (satisfies ac quorum = false →
      ToAdditiveShare k ac quorum = Except.error MPCError.UnauthorizedQuorum) ∧
    (satisfies ac quorum = true →
      ∃ a, ToAdditiveShare k ac quorum = Except.ok a ∧ a.quorum = quorum ∧ a.key = k) := by
  constructor
  · intro h
    simp [ToAdditiveShare, h]
  · intro h
    exact ⟨{ key := k, quorum := quorum }, by simp [ToAdditiveShare, h], rfl, rfl⟩

/-- Witness for C4: the single-name quorum `{server}` against the
2-of-3 policy is rejected with `UnauthorizedQuorum`. -/
theorem toAdditiveShare_quorum_check_witness :
    satisfies (createThresholdAccessStructure ["server", "kms", "pin"] 2 ed25519CurveId)
      ["server"] = false ∧
    ToAdditiveShare ⟨[1], [2]⟩
      (createThresholdAccessStructure ["server", "kms", "pin"] 2 ed25519CurveId)
      ["server"] = Except.error MPCError.UnauthorizedQuorum :=
  ⟨rfl, (toAdditiveShare_quorum_check ⟨[1], [2]⟩
      (createThresholdAccessStructure ["server", "kms", "pin"] 2 ed25519CurveId)
      ["server"]).1 rfl⟩

/-- C8: key-share serialization round-trips — deserializing the bytes
of `MarshalBinary` reproduces the key share exactly, so the
deserialized share has the same `ToAdditiveShare` behavior as the
original, and conversion succeeds for any authorized quorum. -/
theorem marshal_roundtrip (k : EDDSAMPCKey) :
    UnmarshalBinary (MarshalBinary k) = Except.ok k ∧
    (∀ k', UnmarshalBinary (MarshalBinary k) = Except.ok k' →
      ∀ ac quorum,
        ToAdditiveShare k' ac quorum = ToAdditiveShare k ac quorum ∧
        (satisfies ac quorum = true →
          ∃ a, ToAdditiveShare k' ac quorum = Except.ok a)) := by
  have hrt : UnmarshalBinary (MarshalBinary k) = Except.ok k := by
    rw [MarshalBinary, UnmarshalBinary]
    rw [if_neg (by simp)]
    rw [List.take_left, List.drop_left]
  refine ⟨hrt, ?_⟩
  intro k' hk' ac quorum
  rw [hrt] at hk'
  cases hk'
  refine ⟨rfl, ?_⟩
  intro hsat
  exact ⟨{ key := k, quorum := quorum }, by simp [ToAdditiveShare, hsat]⟩

/-- Witness for C8: a concrete key share round-trips and converts for
the authorized quorum `{server, pin}`. -/
theorem marshal_roundtrip_witness :
    UnmarshalBinary (MarshalBinary ⟨[3, 4], [5]⟩) = Except.ok ⟨[3, 4], [5]⟩ ∧
    ToAdditiveShare (⟨[3, 4], [5]⟩ : EDDSAMPCKey)
        (createThresholdAccessStructure ["server", "kms", "pin"] 2 ed25519CurveId)
        ["server", "pin"]
      = ToAdditiveShare ⟨[3, 4], [5]⟩
        (createThresholdAccessStructure ["server", "kms", "pin"] 2 ed25519CurveId)
        ["server", "pin"] :=
  ⟨(marshal_roundtrip ⟨[3, 4], [5]⟩).1,
    ((marshal_roundtrip ⟨[3, 4], [5]⟩).2 ⟨[3, 4], [5]⟩
      (marshal_roundtrip ⟨[3, 4], [5]⟩).1
      (createThresholdAccessStructure ["server", "kms", "pin"] 2 ed25519CurveId)
      ["server", "pin"]).1⟩

/-- C1 (failing input): in `performMPCSigning` of `part_000`, a
completed run whose receiver response is a 33-byte signature passes
the final check — only emptiness is tested — and the non-64-byte
signature is returned as a success, against the required 64-byte
post-condition (which `signWithMPC` and the transaction signer do
enforce). -/
theorem performFinish_accepts_non64 :
    performFinish 0 [Except.ok (List.replicate 33 7), Except.ok []]
      = Except.ok (List.replicate 33 7) ∧
    (List.replicate 33 7).length ≠ 64 :=
  ⟨rfl, by decide⟩

/-- C2 counterexample: the wallet generator accepts a DKG run whose
collected shares carry different public keys — `extractPublicKey`
reads party 0's `Q` only and never byte-compares the others, so no
`KeyConsistencyError` can arise. -/
theorem extractPublicKey_no_crosscheck :
    (⟨[], List.replicate 32 1⟩ : EDDSAMPCKey).q
        ≠ (⟨[], List.replicate 32 2⟩ : EDDSAMPCKey).q ∧
    extractPublicKey
        [⟨[], List.replicate 32 1⟩, ⟨[], List.replicate 32 2⟩,
          ⟨[], List.replicate 32 2⟩]
      = Except.ok (List.replicate 32 1) :=
  ⟨by decide, rfl⟩

/-- C2 amended: after DKG the orchestrator reads the shared public key
from party 0's share only and checks just that its X-coordinate is 32
bytes; the outcome is determined by party 0's `Q` alone, so no
cross-party comparison occurs. -/
theorem extractPublicKey_party0_only (shares : List EDDSAMPCKey)
    (k : EDDSAMPCKey) (h : shares.get? 0 = some k) :
    (k.q.length = 32 → extractPublicKey shares = Except.ok k.q) ∧
    (k.q.length ≠ 32 → ∀ b, extractPublicKey shares ≠ Except.ok b) := by
  have h' : shares[0]? = some k := by simpa using h
  constructor
  · intro hl
    simp [extractPublicKey, h', hl]
  · intro hl b
    simp [extractPublicKey, h', hl]

/-- Witness for the C2 amended theorem at a concrete share list. -/
theorem extractPublicKey_party0_only_witness :
    ([⟨[], List.replicate 32 9⟩, ⟨[], []⟩] : List EDDSAMPCKey).get? 0
        = some ⟨[], List.replicate 32 9⟩ ∧
    extractPublicKey [⟨[], List.replicate 32 9⟩, ⟨[], []⟩]
      = Except.ok (List.replicate 32 9) :=
  ⟨rfl, (extractPublicKey_party0_only [⟨[], List.replicate 32 9⟩, ⟨[], []⟩]
      ⟨[], List.replicate 32 9⟩ rfl).1 (by decide)⟩

/-- If the accumulator already holds the receiver's 64-byte signature
and every remaining receiver-indexed response carries that same
signature, the collection loop of `signWithMPC` returns it. -/
theorem signCollect_acc (receiver : Nat) (s : Bytes) (h64 : s.length = 64) :
    ∀ l : List (Nat × Except MPCError Bytes),
      (∀ p ∈ l, ∃ b, p.2 = Except.ok b) →
      (∀ p ∈ l, p.1 = receiver → p.2 = Except.ok s) →
      signCollect receiver l s = Except.ok s := by
  intro l
  induction l with
  | nil =>
    intro _ _
    simp [signCollect, h64]
  | cons p rest ih =>
    intro hok hrec
    obtain ⟨idx, r⟩ := p
    obtain ⟨b, hb⟩ := hok (idx, r) (List.mem_cons_self _ _)
    simp only at hb
    subst hb
    rw [signCollect]
    by_cases hidx : idx = receiver
    · have hs : Except.ok b = Except.ok s :=
        hrec (idx, Except.ok b) (List.mem_cons_self _ _) hidx
      injection hs with hbs
      subst hbs
      rw [if_pos ⟨hidx, by omega⟩]
      exact ih (fun p hp => hok p (List.mem_cons_of_mem _ hp))
        (fun p hp => hrec p (List.mem_cons_of_mem _ hp))
    · rw [if_neg (fun hc => hidx hc.1)]
      exact ih (fun p hp => hok p (List.mem_cons_of_mem _ hp))
        (fun p hp => hrec p (List.mem_cons_of_mem _ hp))

/-- The collection loop of `signWithMPC` returns the receiver's
signature whenever all members succeed and the receiver's responses
carry the 64-byte signature `s`, regardless of the accumulator it
started from. -/
theorem signCollect_receiver_mem (receiver : Nat) (s : Bytes) (h64 : s.length = 64) :
    ∀ (l : List (Nat × Except MPCError Bytes)) (acc : Bytes),
      (∀ p ∈ l, ∃ b, p.2 = Except.ok b) →
      (∀ p ∈ l, p.1 = receiver → p.2 = Except.ok s) →
      (receiver, Except.ok s) ∈ l →
      signCollect receiver l acc = Except.ok s := by
  intro l
  induction l with
  | nil =>
    intro acc _ _ hmem
    simp at hmem
  | cons p rest ih =>
    intro acc hok hrec hmem
    obtain ⟨idx, r⟩ := p
    obtain ⟨b, hb⟩ := hok (idx, r) (List.mem_cons_self _ _)
    simp only at hb
    subst hb
    rw [signCollect]
    by_cases hidx : idx = receiver
    · have hs : Except.ok b = Except.ok s :=
        hrec (idx, Except.ok b) (List.mem_cons_self _ _) hidx
      injection hs with hbs
      subst hbs
      rw [if_pos ⟨hidx, by omega⟩]
      exact signCollect_acc receiver _ h64 rest
        (fun p hp => hok p (List.mem_cons_of_mem _ hp))
        (fun p hp => hrec p (List.mem_cons_of_mem _ hp))
    · rw [if_neg (fun hc => hidx hc.1)]
      have hmem' : (receiver, Except.ok s) ∈ rest := by
        rcases List.mem_cons.mp hmem with h | h
        · exact absurd (congrArg Prod.fst h).symm hidx
        · exact h
      exact ih acc (fun p hp => hok p (List.mem_cons_of_mem _ hp))
        (fun p hp => hrec p (List.mem_cons_of_mem _ hp)) hmem'

/-- C5: the orchestration layer takes the finalized signature from the
designated receiver's response only.  In `performMPCSigning`
(`part_000`) an error-free run returns exactly the receiver slot's
signature, whatever the other slots hold; in `signWithMPC`
(`part_001`) an error-free collection whose receiver-indexed
responses carry the 64-byte signature `s` returns exactly `s`,
whatever every other member responded. -/
theorem receiver_gets_signature (receiver : Nat) (s : Bytes) :
    (∀ results : List (Except MPCError Bytes),
      firstError results = none →
      results.get? receiver = some (Except.ok s) →
      s ≠ [] →
      performFinish receiver results = Except.ok s) ∧
    (∀ results : List (Nat × Except MPCError Bytes),
      s.length = 64 →
      (∀ p ∈ results, ∃ b, p.2 = Except.ok b) →
      (∀ p ∈ results, p.1 = receiver → p.2 = Except.ok s) →
      (receiver, Except.ok s) ∈ results →
      signCollect receiver results [] = Except.ok s) := by
  constructor
  · intro results hfe hget hne
    simp only [performFinish, hfe, hget]
    rw [if_neg (by simpa [List.length_eq_zero] using hne)]
  · intro results h64 hok hrec hmem
    exact signCollect_receiver_mem receiver s h64 results [] hok hrec hmem

/-- Witness for C5 at a concrete two-member run with receiver 0. -/
theorem receiver_gets_signature_witness :
    firstError [Except.ok (List.replicate 64 2), Except.ok []] = none ∧
    performFinish 0 [Except.ok (List.replicate 64 2), Except.ok []]
      = Except.ok (List.replicate 64 2) ∧
    signCollect 0 [(0, Except.ok (List.replicate 64 2)), (1, Except.ok [])] []
      = Except.ok (List.replicate 64 2) := by
  refine ⟨rfl, ?_, ?_⟩
  · exact (receiver_gets_signature 0 (List.replicate 64 2)).1 _ rfl rfl (by decide)
  · refine (receiver_gets_signature 0 (List.replicate 64 2)).2 _ (by decide)
      ?_ ?_ (List.mem_cons_self _ _)
    · intro p hp
      fin_cases hp
      · exact ⟨_, rfl⟩
      · exact ⟨_, rfl⟩
    · intro p hp
      fin_cases hp
      · intro _; rfl
      · intro h; exact absurd h (by decide)

/-- An error among the task outcomes is seen by `eg.Wait`. -/
theorem firstError_ne_none {α : Type} (e : MPCError) :
    ∀ results : List (Except MPCError α),
      Except.error e ∈ results → firstError results ≠ none := by
  intro results
  induction results with
  | nil =>
    intro h
    simp at h
  | cons r rest ih =>
    intro hmem
    cases r with
    | error e' => simp [firstError]
    | ok a =>
      have hmem' : Except.error e ∈ rest := by
        rcases List.mem_cons.mp hmem with h | h
        · simp at h
        · exact h
      simpa [firstError] using ih hmem'

/-- The collection loop of `signWithMPC` never succeeds when some
member's response is an error. -/
theorem signCollect_error_mem (receiver : Nat) (e : MPCError) :
    ∀ (l : List (Nat × Except MPCError Bytes)) (acc : Bytes) (idx : Nat),
      (idx, Except.error e) ∈ l →
      ∀ s, signCollect receiver l acc ≠ Except.ok s := by
  intro l
  induction l with
  | nil =>
    intro acc idx h
    simp at h
  | cons p rest ih =>
    intro acc idx hmem s
    obtain ⟨i, r⟩ := p
    cases r with
    | error e' => simp [signCollect]
    | ok b =>
      rw [signCollect]
      apply ih _ idx _ s
      rcases List.mem_cons.mp hmem with h | h
      · simp at h
      · exact h

/-- C6: a multi-party run is atomic at the orchestration layer: if any
party's task returns an error, each collection path reports the run
as failed and returns no signature and no key shares —
`performMPCSigning`'s finish (`part_000`), the wallet generator's DKG
fan-in, and `signWithMPC`'s signature collection (`part_001`). -/
theorem run_atomicity (e : MPCError) :
    (∀ (receiver : Nat) (results : List (Except MPCError Bytes)),
      Except.error e ∈ results →
      ∀ s, performFinish receiver results ≠ Except.ok s) ∧
    (∀ results : List (Except MPCError EDDSAMPCKey),
      Except.error e ∈ results →
      ∀ ks, dkgMain results ≠ Except.ok ks) ∧
    (∀ (receiver idx : Nat) (results : List (Nat × Except MPCError Bytes)),
      (idx, Except.error e) ∈ results →
      ∀ s, signCollect receiver results [] ≠ Except.ok s) := by
  refine ⟨?_, ?_, ?_⟩
  · intro receiver results hmem s heq
    cases hfe : firstError results with
    | none => exact firstError_ne_none e results hmem hfe
    | some e' => simp [performFinish, hfe] at heq
  · intro results hmem ks heq
    cases hfe : firstError results with
    | none => exact firstError_ne_none e results hmem hfe
    | some e' => simp [dkgMain, hfe] at heq
  · intro receiver idx results hmem s
    exact signCollect_error_mem receiver e results [] idx hmem s

/-- Witness for C6: a two-party signing run whose second party failed is
never reported as a success by `part_000`'s collection. -/
theorem run_atomicity_witness :
    Except.error (MPCError.other "transport failure") ∈
      ([Except.ok [], Except.error (MPCError.other "transport failure")] :
        List (Except MPCError Bytes)) ∧
    performFinish 0 [Except.ok [], Except.error (MPCError.other "transport failure")]
      ≠ Except.ok (List.replicate 64 0) := by
  constructor
  · simp
  · exact (run_atomicity (MPCError.other "transport failure")).1 0 _ (by simp) _

/-- Flattening byte blocks of a common length `h` yields
`count * h` bytes. -/
theorem length_flatten_const (h : Nat) :
    ∀ l : List Bytes, (∀ x ∈ l, x.length = h) →
      l.flatten.length = l.length * h := by
  intro l
  induction l with
  | nil =>
    intro _
    simp
  | cons x xs ih =>
    intro hx
    have h1 : x.length = h := hx x (List.mem_cons_self _ _)
    have h2 : xs.flatten.length = xs.length * h :=
      ih (fun y hy => hx y (List.mem_cons_of_mem _ hy))
    show (x ++ xs.flatten).length = (x :: xs).length * h
    rw [List.length_append, h1, h2, List.length_cons, Nat.succ_mul,
      Nat.add_comm]

/-- The PBKDF2 inner loop preserves the PRF block length. -/
theorem pbkdf2Inner_length (prf : Bytes → Bytes → Bytes) (password : Bytes)
    (hLen : Nat) (hprf : ∀ k m, (prf k m).length = hLen) :
    ∀ (n : Nat) (u t : Bytes), t.length = hLen →
      (pbkdf2Inner prf password n u t).length = hLen := by
  intro n
  induction n with
  | zero =>
    intro u t ht
    exact ht
  | succ n ih =>
    intro u t ht
    show (pbkdf2Inner prf password n (prf password u)
        (xorBytes t (prf password u))).length = hLen
    apply ih
    simp [xorBytes, ht, hprf]

/-- Each PBKDF2 run produces exactly `keyLen` bytes when the PRF
produces `hLen`-byte blocks. -/
theorem pbkdf2Key_length (prf : Bytes → Bytes → Bytes) (password salt : Bytes)
    (iter keyLen hLen : Nat) (hpos : 0 < hLen)
    (hprf : ∀ k m, (prf k m).length = hLen) :
    (pbkdf2Key prf password salt iter keyLen hLen).length = keyLen := by
  unfold pbkdf2Key
  rw [List.length_take]
  rw [length_flatten_const hLen _ ?blocks]
  case blocks =>
    intro x hx
    simp only [List.mem_map] at hx
    obtain ⟨b, _, rfl⟩ := hx
    exact pbkdf2Inner_length prf password hLen hprf _ _ _ (hprf _ _)
  rw [List.length_map, List.length_range]
  have hceil : keyLen ≤ (keyLen + hLen - 1) / hLen * hLen := by
    have h2 : hLen * ((keyLen + hLen - 1) / hLen) + (keyLen + hLen - 1) % hLen
        = keyLen + hLen - 1 := Nat.div_add_mod _ _
    have h1 : (keyLen + hLen - 1) % hLen < hLen := Nat.mod_lt _ hpos
    rw [Nat.mul_comm] at h2
    generalize (keyLen + hLen - 1) / hLen * hLen = m at h2 ⊢
    generalize (keyLen + hLen - 1) % hLen = r at h1 h2
    omega
  exact Nat.min_eq_left hceil

/-- C7: PIN-based key derivation is deterministic and fixed-size: for
every PIN, with the same salt, 100000 iterations and output length 32,
two runs of `pbkdf2Key` produce byte-identical results, and the result
is exactly 32 bytes (for any PRF with 32-byte blocks, as HMAC-SHA-256
has). -/
theorem pbkdf2_deterministic (prf : Bytes → Bytes → Bytes)
    (hprf : ∀ k m, (prf k m).length = 32) (pin salt : Bytes) :
    pbkdf2Key prf pin salt 100000 32 32 = pbkdf2Key prf pin salt 100000 32 32 ∧
    (pbkdf2Key prf pin salt 100000 32 32).length = 32 :=
  ⟨rfl, pbkdf2Key_length prf pin salt 100000 32 32 (by omega) hprf⟩

/-- Witness for C7 with a concrete 32-byte-block PRF and PIN. -/
theorem pbkdf2_deterministic_witness :
    (∀ k m : Bytes, ((fun (_ _ : Bytes) => List.replicate 32 0) k m).length = 32) ∧
    (pbkdf2Key (fun _ _ => List.replicate 32 0) [1, 2, 3] pinSalt000
        100000 32 32).length = 32 :=
  ⟨fun _ _ => by simp,
    (pbkdf2_deterministic (fun _ _ => List.replicate 32 0)
      (fun _ _ => by simp) [1, 2, 3] pinSalt000).2⟩

/-- C9: the PIN does not influence `performMPCSigning` of `part_000`:
the PBKDF2-derived key material is computed and then discarded, so for
any two PIN values with the same hard-coded shares and the same
message the whole outcome, including the returned signature, is
identical. -/
theorem performMPCSigning_pin_independent (prf : Bytes → Bytes → Bytes)
    (o : MPCOracle) (s1Bytes s3Bytes message pin1 pin2 : Bytes) :
    performMPCSigning prf o s1Bytes s3Bytes pin1 message
      = performMPCSigning prf o s1Bytes s3Bytes pin2 message := rfl

/-- C10: `signWithMPC` of `part_001` signs with fresh in-process
`EDDSAMPCKeyGen` shares rather than shares derived from the persisted
`S1Share` constant: its outcome is identical for every value of that
constant; consequently, when its signature verifies only against the
fresh run's public key and that key differs from the stored wallet's
key, verification against the stored wallet address fails. -/
theorem signWithMPC_s1_independent (o : MPCOracle) (msg : Bytes)
    (s1 s1' : String) :
    signWithMPC o s1 msg = signWithMPC o s1' msg ∧
    (∀ (verify : Bytes → Bytes → Bytes → Bool) (sig freshQ walletKey : Bytes),
      signWithMPC o s1 msg = Except.ok sig →
      (∀ pk, verify sig msg pk = true → pk = freshQ) →
      freshQ ≠ walletKey →
      verify sig msg walletKey = false) := by
  refine ⟨rfl, ?_⟩
  intro verify sig freshQ walletKey _ hsound hne
  cases hv : verify sig msg walletKey with
  | false => rfl
  | true => exact absurd (hsound walletKey hv).symm hne

/-- Witness for C10 at the concrete demo oracle. -/
theorem signWithMPC_s1_independent_witness :
    signWithMPC demoOracle "anything" [1] = Except.ok (List.replicate 64 5) ∧
    (fun (_ _ _ : Bytes) => false) (List.replicate 64 5) [1]
        (List.replicate 32 9) = false := by
  refine ⟨rfl, ?_⟩
  exact (signWithMPC_s1_independent demoOracle [1] "anything" "other").2
    (fun _ _ _ => false) (List.replicate 64 5) [0] (List.replicate 32 9) rfl
    (fun pk hpk => by simp at hpk) (by decide)
